import Mathlib

/-!
# Spectraz: the native PTY shell bridge (`native-lib.cpp`)

A shallow embedding of the three JNI entry points of
`app/src/main/cpp/native-lib.cpp` together with the two process-wide globals
`shell_pid` and `master_fd`.

The operating system and the Java VM are outside the program.  They appear as
follows.

* Every system call the program issues is appended to `Process.calls`, oldest
  first, with the arguments it was given.
* What a call answers is an explicit argument of the embedded function
  (`ForkptyResult`, `ReadOutcome`, `execOk`), so that every theorem quantifies
  over all answers the kernel may give.
* `jstring` values that enter native code are sequences of UTF-16 code units;
  `GetStringUTFChars` is the modified UTF-8 encoding of the JNI specification.
* A `jstring` built by `NewStringUTF` records the NUL-terminated bytes it is
  built from and the UTF-16 code units these bytes decode to.  The JNI
  specification defines the decoding for modified UTF-8 only; for other bytes
  the content of the string is left to the VM and the model gives none.
-/

namespace Spectraz

/-! ## Data model -/

/-- A C `char` seen as its unsigned value. -/
abbrev Byte := Nat

/-- The `struct winsize` of `<sys/ioctl.h>`, fields in declaration order. -/
structure winsize where
  ws_row : Nat
  ws_col : Nat
  ws_xpixel : Nat
  ws_ypixel : Nat
deriving DecidableEq

/-- A system call issued by the program, with its arguments.  Buffers are
recorded by content: `write fd data` stands for `write(fd, buf, n)` where
`data` are the `n` bytes at `buf`; `read fd count` for `read(fd, buf, count)`. -/
inductive Call where
  | forkpty (winp : winsize)
  | execlp (file : String) (argv : List String)
  | _exit (status : Int)
  | write (fd : Int) (data : List Byte)
  | read (fd : Int) (count : Nat)
deriving DecidableEq

/-- The state of one process running the library: the two globals of
`native-lib.cpp`, the kernel resources the process holds (open PTY master
descriptors, children launched and not yet reaped), and the calls issued. -/
structure Process where
  shell_pid : Int
  master_fd : Int
  masters : List Int
  children : List Int
  calls : List Call
deriving DecidableEq

/-- The state at library load: `int shell_pid = -1; int master_fd = -1;`. -/
def boot : Process :=
  { shell_pid := -1, master_fd := -1, masters := [], children := [], calls := [] }

/-- A state with one live session, as left by a first successful `startShell`
to which `forkpty` answered child 4001 on master descriptor 57. -/
def live : Process :=
  { shell_pid := 4001, master_fd := 57, masters := [57], children := [4001],
    calls := [Call.forkpty { ws_row := 24, ws_col := 80, ws_xpixel := 0, ws_ypixel := 0 }] }

/-- Record one issued call. -/
def log (p : Process) (c : Call) : Process :=
  { p with calls := p.calls ++ [c] }

/-! ## The environment: libc and JNI -/

/-- What `forkpty` answers: the returned pid, and the master descriptor it
stores through `amaster` when it returns in the parent. -/
structure ForkptyResult where
  pid : Int
  amaster : Int
deriving DecidableEq

/-- `forkpty(&master_fd, nullptr, nullptr, winp)`.  In the parent (positive
pid) the new master descriptor is stored in `master_fd`, stays open, and the
child exists until reaped.  On failure (negative pid) nothing is kept.  In the
child (pid 0) the new master is closed again, the descriptors of the parent
are inherited, and the process has no child of its own. -/
def forkpty (p : Process) (winp : winsize) (r : ForkptyResult) : Int × Process :=
  let p := log p (Call.forkpty winp)
  if r.pid > 0 then
    (r.pid, { p with master_fd := r.amaster,
                     masters := r.amaster :: p.masters,
                     children := r.pid :: p.children })
  else if r.pid = 0 then
    (0, { p with children := [] })
  else
    (r.pid, p)

/-- `write(fd, buf, count)`: the program discards the return value, so only
the request is recorded. -/
def write (p : Process) (fd : Int) (buf : List Byte) (count : Nat) : Process :=
  log p (Call.write fd (buf.take count))

/-- What the kernel has for a `read`: an error, or the bytes currently
available (none at end of file). -/
inductive ReadOutcome where
  | error (errno : Nat)
  | data (avail : List Byte)
deriving DecidableEq

/-- `read(fd, buf, count)`: a negative descriptor is rejected; an error
returns -1 and leaves the buffer alone; otherwise at most `count` of the
available bytes are stored from offset 0 and their number is returned. -/
def read (p : Process) (fd : Int) (buf : Nat → Byte) (count : Nat) (o : ReadOutcome) :
    Int × (Nat → Byte) × Process :=
  let p := log p (Call.read fd count)
  if fd < 0 then (-1, buf, p)
  else
    match o with
    | ReadOutcome.error _ => (-1, buf, p)
    | ReadOutcome.data avail =>
      let d := avail.take count
      ((d.length : Int), (fun i => d.getD i (buf i)), p)

/-- `strlen`: the number of bytes before the first NUL. -/
def strlen : List Byte → Nat
  | [] => 0
  | b :: rest => if b = 0 then 0 else strlen rest + 1

/-- Modified UTF-8 of one UTF-16 code unit (JNI specification): U+0001..U+007F
take one byte, U+0000 and U+0080..U+07FF two, everything else three
(surrogates are encoded one by one). -/
def encodeUnit (c : Nat) : List Byte :=
  if 1 ≤ c ∧ c ≤ 0x7F then [c]
  else if c ≤ 0x7FF then [0xC0 + (c / 64) % 32, 0x80 + c % 64]
  else [0xE0 + (c / 4096) % 16, 0x80 + (c / 64) % 64, 0x80 + c % 64]

/-- The modified UTF-8 bytes of a Java string given by its UTF-16 code units. -/
def utfBytes : List Nat → List Byte
  | [] => []
  | c :: rest => encodeUnit c ++ utfBytes rest

/-- `env->GetStringUTFChars(cmd, nullptr)`: the NUL-terminated modified UTF-8
buffer of the string. -/
def GetStringUTFChars (cmd : List Nat) : List Byte :=
  utfBytes cmd ++ [0]

/-- The bytes of the NUL-terminated string starting at offset `i` of an object
of which `size` bytes remain; `none` when no NUL is met inside the object. -/
def cstring (mem : Nat → Byte) (i : Nat) : Nat → Option (List Byte)
  | 0 => none
  | size + 1 =>
    if mem i = 0 then some []
    else (cstring mem (i + 1) size).map (fun s => mem i :: s)

/-- A continuation byte `10xxxxxx` of modified UTF-8. -/
def isContinuation (x : Nat) : Bool := decide (0x80 ≤ x ∧ x ≤ 0xBF)

/-- The UTF-16 code units that a modified UTF-8 byte string stands for (JNI
specification): one byte `0xxxxxxx` for U+0001..U+007F, two bytes
`110xxxxx 10xxxxxx` for U+0000 and U+0080..U+07FF, three bytes
`1110xxxx 10xxxxxx 10xxxxxx` for U+0800..U+FFFF.  `none` for any other byte
string (a stray or missing continuation byte, a lead byte 0xF0..0xFF, an
overlong form): the specification does not say what string results. -/
def decodeUTF : List Nat → Option (List Nat)
  | [] => some []
  | b :: rest =>
    if 1 ≤ b ∧ b ≤ 0x7F then
      (decodeUTF rest).map (fun s => b :: s)
    else
      match rest with
      | [] => none
      | x :: rest2 =>
        if 0xC0 ≤ b ∧ b ≤ 0xDF ∧ isContinuation x = true
            ∧ ((b - 0xC0) * 64 + (x - 0x80) = 0 ∨ 0x80 ≤ (b - 0xC0) * 64 + (x - 0x80)) then
          (decodeUTF rest2).map (fun s => ((b - 0xC0) * 64 + (x - 0x80)) :: s)
        else
          match rest2 with
          | [] => none
          | y :: rest3 =>
            if 0xE0 ≤ b ∧ b ≤ 0xEF ∧ isContinuation x = true ∧ isContinuation y = true
                ∧ 0x800 ≤ (b - 0xE0) * 4096 + (x - 0x80) * 64 + (y - 0x80) then
              (decodeUTF rest3).map
                (fun s => ((b - 0xE0) * 4096 + (x - 0x80) * 64 + (y - 0x80)) :: s)
            else none

/-- A Java string made by `NewStringUTF`: the bytes of the C string it was
made from, and its UTF-16 code units; `chars = none` when those bytes are not
modified UTF-8, so that the content of the string is left to the VM. -/
structure jstring where
  bytes : List Byte
  chars : Option (List Nat)
deriving DecidableEq

/-- `env->NewStringUTF(bytes)` on an object of `size` bytes: the Java string
decoded from the NUL-terminated byte string at its start; `none` when no NUL
is met inside the object. -/
def NewStringUTF (mem : Nat → Byte) (size : Nat) : Option jstring :=
  (cstring mem 0 size).map (fun s => { bytes := s, chars := decodeUTF s })

/-- The indexed store `buffer[i] = v` into an array of `size` bytes; `none`
when the index is outside the array. -/
def store (buf : Nat → Byte) (size : Nat) (i : Int) (v : Byte) : Option (Nat → Byte) :=
  if 0 ≤ i ∧ i < (size : Int) then some (fun j => if j = i.toNat then v else buf j)
  else none

/-! ## The three entry points -/

/-- How a call of `startShell` ends: it returns to the Java caller, or (in the
child) the process image is replaced, or (in the child) the process exits. -/
inductive Outcome where
  | returned (result : Bool) (p : Process)
  | replaced (p : Process)
  | terminated (status : Int) (p : Process)
deriving DecidableEq

/-- `Java_com_tesseract_spectraz_TerminalNative_startShell`. `execOk` tells
whether `execlp` succeeds should the child reach it. -/
def Java_com_tesseract_spectraz_TerminalNative_startShell
    (p : Process) (r : ForkptyResult) (execOk : Bool) : Outcome :=
  let win : winsize := { ws_row := 24, ws_col := 80, ws_xpixel := 0, ws_ypixel := 0 }
  let (pid, p) := forkpty p win r
  if pid < 0 then Outcome.returned false p
  else if pid = 0 then
    let p := log p (Call.execlp "su" ["su"])
    if execOk then Outcome.replaced p
    else Outcome.terminated 1 (log p (Call._exit 1))
  else
    Outcome.returned true { p with shell_pid := pid }

/-- `Java_com_tesseract_spectraz_TerminalNative_sendToShell`. -/
def Java_com_tesseract_spectraz_TerminalNative_sendToShell
    (p : Process) (cmd : List Nat) : Process :=
  let nativeCmd := GetStringUTFChars cmd
  let p := write p p.master_fd nativeCmd (strlen nativeCmd)
  let p := write p p.master_fd [0x0A, 0] 1
  p

/-- `Java_com_tesseract_spectraz_TerminalNative_readFromShell`. `stack` is the
indeterminate initial content of `char buffer[1024]`. The result is `none`
when the execution leaves the buffer (undefined behaviour). -/
def Java_com_tesseract_spectraz_TerminalNative_readFromShell
    (p : Process) (stack : Nat → Byte) (o : ReadOutcome) : Option jstring × Process :=
  let buffer := stack
  let (len, buffer, p) := read p p.master_fd buffer (1024 - 1) o
  if len > 0 then
    match store buffer 1024 len 0 with
    | none => (none, p)
    | some buffer => (NewStringUTF buffer 1024, p)
  else
    (NewStringUTF (fun _ => 0) 1, p)

/-! ## Sequences of calls from the Java side -/

/-- One call of an entry point, with the answers of the environment. -/
inductive Op where
  | startShell (r : ForkptyResult) (execOk : Bool)
  | sendToShell (cmd : List Nat)
  | readFromShell (stack : Nat → Byte) (o : ReadOutcome)

/-- The state of the calling process after one call; `none` when control does
not come back to the caller in this process (the child of `startShell`). -/
def step (p : Process) : Op → Option Process
  | Op.startShell r execOk =>
    match Java_com_tesseract_spectraz_TerminalNative_startShell p r execOk with
    | Outcome.returned _ q => some q
    | _ => none
  | Op.sendToShell cmd =>
    some (Java_com_tesseract_spectraz_TerminalNative_sendToShell p cmd)
  | Op.readFromShell stack o =>
    some (Java_com_tesseract_spectraz_TerminalNative_readFromShell p stack o).2

/-- The state after a sequence of calls. -/
def run (p : Process) : List Op → Option Process
  | [] => some p
  | op :: rest =>
    match step p op with
    | none => none
    | some q => run q rest

/-- The number of `startShell` calls of a sequence that launched a child. -/
def launches : List Op → Nat
  | [] => 0
  | Op.startShell r _ :: rest => (if r.pid > 0 then 1 else 0) + launches rest
  | _ :: rest => launches rest

/-- The bytes submitted by the `write` calls of a trace, in call order. -/
def submitted : List Call → List Byte
  | [] => []
  | Call.write _ data :: rest => data ++ submitted rest
  | _ :: rest => submitted rest

/-- The program and argument vector of the `execlp` calls of a trace. -/
def execRequests : List Call → List (String × List String)
  | [] => []
  | Call.execlp file argv :: rest => (file, argv) :: execRequests rest
  | _ :: rest => execRequests rest

/-- The trace of calls at the end of a `startShell`. -/
def Outcome.calls : Outcome → List Call
  | Outcome.returned _ p => p.calls
  | Outcome.replaced p => p.calls
  | Outcome.terminated _ p => p.calls


/-- The bookkeeping of the globals after `n` launches: `n` children and `n`
open masters, the newest of each held in `shell_pid` and `master_fd`. -/
def Tracks (p : Process) (n : Nat) : Prop :=
  p.children.length = n ∧ p.masters.length = n
    ∧ p.master_fd = p.masters.headD (-1) ∧ p.shell_pid = p.children.headD (-1)

/-! ## Auxiliary facts -/

theorem encodeUnit_ne_zero (c : Nat) : ∀ b : Nat, b ∈ encodeUnit c → b ≠ 0 := by
  intro b hb
  unfold encodeUnit at hb
  split_ifs at hb with h1 h2
  · simp only [List.mem_singleton] at hb
    omega
  · simp only [List.mem_cons, List.mem_singleton, List.not_mem_nil, or_false] at hb
    omega
  · simp only [List.mem_cons, List.mem_singleton, List.not_mem_nil, or_false] at hb
    omega

theorem utfBytes_ne_zero (cmd : List Nat) : ∀ b : Nat, b ∈ utfBytes cmd → b ≠ 0 := by
  induction cmd with
  | nil => intro b hb; simp [utfBytes] at hb
  | cons c rest ih =>
    intro b hb
    simp only [utfBytes, List.mem_append] at hb
    rcases hb with hb | hb
    · exact encodeUnit_ne_zero c b hb
    · exact ih b hb

theorem strlen_append_nul (l r : List Byte) (h : ∀ b ∈ l, b ≠ 0) :
    strlen (l ++ 0 :: r) = l.length := by
  induction l with
  | nil => simp [strlen]
  | cons a l ih =>
    have ha : a ≠ 0 := h a (by simp)
    have ih2 := ih (fun b hb => h b (by simp [hb]))
    simp [strlen, ha, ih2]

theorem submitted_append (xs ys : List Call) :
    submitted (xs ++ ys) = submitted xs ++ submitted ys := by
  induction xs with
  | nil => rfl
  | cons c xs ih => cases c <;> simp [submitted, ih]

theorem execRequests_append (xs ys : List Call) :
    execRequests (xs ++ ys) = execRequests xs ++ execRequests ys := by
  induction xs with
  | nil => rfl
  | cons c xs ih => cases c <;> simp [execRequests, ih]

theorem cstring_of_data (d : List Byte) : ∀ (mem : Nat → Byte) (i size : Nat),
    (∀ k, k < d.length → mem (i + k) = d.getD k 0) → mem (i + d.length) = 0 →
    d.length < size → cstring mem i size = some (d.takeWhile (fun b => b != 0)) := by
  induction d with
  | nil =>
    intro mem i size _ h0 hs
    cases size with
    | zero => simp at hs
    | succ s => simp at h0; simp [cstring, h0]
  | cons b d ih =>
    intro mem i size hd h0 hs
    cases size with
    | zero => simp at hs
    | succ s =>
      have hb : mem i = b := by simpa using hd 0 (by simp)
      by_cases hz : b = 0
      · simp [cstring, hb, hz]
      · have hrec := ih mem (i + 1) s
          (fun k hk => by
            have := hd (k + 1) (by simpa using hk)
            simpa [Nat.add_assoc, Nat.add_comm 1 k] using this)
          (by simpa [Nat.add_assoc, Nat.add_comm 1] using h0)
          (by simpa using hs)
        simp [cstring, hb, hz, hrec]


theorem decodeUTF_cons (b : Nat) (rest : List Nat) :
    decodeUTF (b :: rest) =
    if 1 ≤ b ∧ b ≤ 0x7F then
      (decodeUTF rest).map (fun s => b :: s)
    else
      match rest with
      | [] => none
      | x :: rest2 =>
        if 0xC0 ≤ b ∧ b ≤ 0xDF ∧ isContinuation x = true
            ∧ ((b - 0xC0) * 64 + (x - 0x80) = 0 ∨ 0x80 ≤ (b - 0xC0) * 64 + (x - 0x80)) then
          (decodeUTF rest2).map (fun s => ((b - 0xC0) * 64 + (x - 0x80)) :: s)
        else
          match rest2 with
          | [] => none
          | y :: rest3 =>
            if 0xE0 ≤ b ∧ b ≤ 0xEF ∧ isContinuation x = true ∧ isContinuation y = true
                ∧ 0x800 ≤ (b - 0xE0) * 4096 + (x - 0x80) * 64 + (y - 0x80) then
              (decodeUTF rest3).map
                (fun s => ((b - 0xE0) * 4096 + (x - 0x80) * 64 + (y - 0x80)) :: s)
            else none := by
  cases rest with
  | nil => rfl
  | cons x rest2 =>
    cases rest2 with
    | nil => rfl
    | cons y rest3 => rfl

theorem decodeUTF_cons_ne_nil (b : Nat) (rest : List Nat) :
    decodeUTF (b :: rest) ≠ some [] := by
  rw [decodeUTF_cons]
  split_ifs
  · cases decodeUTF rest <;> simp
  · cases rest with
    | nil => simp
    | cons x rest2 =>
      simp only []
      split_ifs
      · cases decodeUTF rest2 <;> simp
      · cases rest2 with
        | nil => simp
        | cons y rest3 =>
          simp only []
          split_ifs
          · cases decodeUTF rest3 <;> simp
          · simp

theorem decodeUTF_length_aux (n : Nat) : ∀ (bs : List Nat) (u : List Nat),
    bs.length ≤ n → decodeUTF bs = some u → u.length ≤ bs.length := by
  induction n with
  | zero =>
    intro bs u hn h
    have : bs = [] := List.length_eq_zero.mp (by omega)
    subst this
    have : u = [] := by simpa [decodeUTF] using h.symm
    subst this
    simp
  | succ n ih =>
    intro bs u hn h
    cases bs with
    | nil =>
      have : u = [] := by simpa [decodeUTF] using h.symm
      subst this
      simp
    | cons b rest =>
      rw [decodeUTF_cons] at h
      have hrec : ∀ (tail : List Nat) (v : Nat), tail.length ≤ n →
          (decodeUTF tail).map (fun s => v :: s) = some u → u.length ≤ tail.length + 1 := by
        intro tail v hl hm
        cases hd : decodeUTF tail with
        | none => rw [hd] at hm; simp at hm
        | some w =>
          rw [hd] at hm
          have hu : u = v :: w := by simpa using hm.symm
          have := ih tail w hl hd
          subst hu
          simp only [List.length_cons]
          omega
      simp only [List.length_cons] at hn
      split_ifs at h
      · have := hrec rest b (by omega) h
        simp only [List.length_cons]; omega
      · cases rest with
        | nil => simp at h
        | cons x rest2 =>
          simp only [List.length_cons] at hn
          simp only [] at h
          split_ifs at h
          · have := hrec rest2 _ (by omega) h
            simp only [List.length_cons]; omega
          · cases rest2 with
            | nil => simp at h
            | cons y rest3 =>
              simp only [List.length_cons] at hn
              simp only [] at h
              split_ifs at h
              have := hrec rest3 _ (by omega) h
              simp only [List.length_cons]; omega

theorem decodeUTF_length (bs : List Nat) (u : List Nat) (h : decodeUTF bs = some u) :
    u.length ≤ bs.length :=
  decodeUTF_length_aux bs.length bs u (Nat.le_refl _) h

theorem read_rejected (p : Process) (fd : Int) (buf : Nat → Byte) (count : Nat)
    (o : ReadOutcome) (h : fd < 0) :
    read p fd buf count o = (-1, buf, log p (Call.read fd count)) := by
  unfold read
  rw [if_pos h]

theorem read_error (p : Process) (fd : Int) (buf : Nat → Byte) (count e : Nat) :
    read p fd buf count (ReadOutcome.error e) = (-1, buf, log p (Call.read fd count)) := by
  unfold read
  by_cases h : fd < 0
  · rw [if_pos h]
  · rw [if_neg h]

theorem read_data (p : Process) (fd : Int) (buf : Nat → Byte) (count : Nat)
    (avail : List Byte) (h : 0 ≤ fd) :
    read p fd buf count (ReadOutcome.data avail)
      = (((avail.take count).length : Int),
         (fun i => (avail.take count).getD i (buf i)), log p (Call.read fd count)) := by
  unfold read
  rw [if_neg (by omega)]

theorem readFromShell_of_read (p : Process) (stack : Nat → Byte) (o : ReadOutcome)
    (len : Int) (buf : Nat → Byte) (q : Process)
    (h : read p p.master_fd stack 1023 o = (len, buf, q)) :
    Java_com_tesseract_spectraz_TerminalNative_readFromShell p stack o
      = if len > 0 then
          (match store buf 1024 len 0 with
           | none => (none, q)
           | some b => (NewStringUTF b 1024, q))
        else (NewStringUTF (fun _ => 0) 1, q) := by
  unfold Java_com_tesseract_spectraz_TerminalNative_readFromShell
  dsimp only
  rw [show (1024 - 1 : Nat) = 1023 from rfl, h]


theorem NewStringUTF_empty :
    NewStringUTF (fun _ => 0) 1 = some { bytes := [], chars := some [] } := by
  simp [NewStringUTF, cstring, decodeUTF]

theorem readFromShell_no_data (p : Process) (stack : Nat → Byte) (o : ReadOutcome)
    (h : p.master_fd < 0 ∨ (∃ e, o = ReadOutcome.error e) ∨ o = ReadOutcome.data []) :
    Java_com_tesseract_spectraz_TerminalNative_readFromShell p stack o
      = (some { bytes := [], chars := some [] }, log p (Call.read p.master_fd 1023)) := by
  by_cases hfd : p.master_fd < 0
  · rw [readFromShell_of_read p stack o _ _ _ (read_rejected p _ stack 1023 o hfd),
      if_neg (by decide), NewStringUTF_empty]
  · rcases h with h | ⟨e, rfl⟩ | rfl
    · exact absurd h hfd
    · rw [readFromShell_of_read p stack _ _ _ _ (read_error p _ stack 1023 e),
        if_neg (by decide), NewStringUTF_empty]
    · rw [readFromShell_of_read p stack _ _ _ _ (read_data p _ stack 1023 [] (by omega)),
        if_neg (by simp), NewStringUTF_empty]

theorem readFromShell_data (p : Process) (stack : Nat → Byte) (avail : List Byte)
    (hfd : 0 ≤ p.master_fd) :
    Java_com_tesseract_spectraz_TerminalNative_readFromShell p stack (ReadOutcome.data avail)
      = (some { bytes := (avail.take 1023).takeWhile (fun b => b != 0),
                chars := decodeUTF ((avail.take 1023).takeWhile (fun b => b != 0)) },
         log p (Call.read p.master_fd 1023)) := by
  by_cases hnil : avail = []
  · subst hnil
    rw [readFromShell_no_data p stack _ (Or.inr (Or.inr rfl))]
    simp [decodeUTF]
  · have hlen : (avail.take 1023).length ≤ 1023 := by simp
    have hpos : 0 < (avail.take 1023).length := by
      cases avail with
      | nil => exact absurd rfl hnil
      | cons a l => simp
    rw [readFromShell_of_read p stack _ _ _ _ (read_data p _ stack 1023 avail hfd),
      if_pos (by omega)]
    have hst : store (fun i => (List.take 1023 avail).getD i (stack i)) 1024
        ((List.take 1023 avail).length : Int) 0
        = some (fun j => if j = (List.take 1023 avail).length then 0
                          else (List.take 1023 avail).getD j (stack j)) := by
      unfold store
      rw [if_pos (by constructor <;> omega), Int.toNat_ofNat]
    rw [hst]
    have hcs : NewStringUTF (fun j => if j = (List.take 1023 avail).length then 0
                          else (List.take 1023 avail).getD j (stack j)) 1024
        = some { bytes := (avail.take 1023).takeWhile (fun b => b != 0),
                 chars := decodeUTF ((avail.take 1023).takeWhile (fun b => b != 0)) } := by
      unfold NewStringUTF
      rw [cstring_of_data (avail.take 1023) _ 0 1024]
      · rfl
      · intro k hk
        have hne : k ≠ (List.take 1023 avail).length := by omega
        rw [Nat.zero_add, if_neg hne, List.getD_eq_getElem _ _ hk, List.getD_eq_getElem _ _ hk]
      · rw [Nat.zero_add, if_pos rfl]
      · omega
    show (NewStringUTF _ 1024, _) = _
    rw [hcs]


theorem sendToShell_eq (p : Process) (cmd : List Nat) :
    Java_com_tesseract_spectraz_TerminalNative_sendToShell p cmd
      = { p with calls := p.calls ++ [Call.write p.master_fd (utfBytes cmd),
                                      Call.write p.master_fd [0x0A]] } := by
  have hlen : strlen (GetStringUTFChars cmd) = (utfBytes cmd).length := by
    unfold GetStringUTFChars
    exact strlen_append_nul (utfBytes cmd) [] (utfBytes_ne_zero cmd)
  unfold Java_com_tesseract_spectraz_TerminalNative_sendToShell
  dsimp only
  rw [hlen]
  simp [write, log, GetStringUTFChars]

/-! ## The claims -/

/-- C1: for every command string, `sendToShell` issues exactly two `write`
calls on the value of `master_fd`, the first with the (modified UTF-8) bytes of
the command and the second with the single byte 0x0A, so the bytes it submits
are the bytes of the command followed by one line terminator; two consecutive
calls submit the first command, a terminator, the second command, a
terminator, in that order. -/
theorem sendToShell_submits_command_then_newline (p : Process) (cmd1 cmd2 : List Nat) :
    (Java_com_tesseract_spectraz_TerminalNative_sendToShell p cmd1).calls
        = p.calls ++ [Call.write p.master_fd (utfBytes cmd1), Call.write p.master_fd [0x0A]]
    ∧ submitted (Java_com_tesseract_spectraz_TerminalNative_sendToShell p cmd1).calls
        = submitted p.calls ++ (utfBytes cmd1 ++ [0x0A])
    ∧ submitted (Java_com_tesseract_spectraz_TerminalNative_sendToShell
          (Java_com_tesseract_spectraz_TerminalNative_sendToShell p cmd1) cmd2).calls
        = submitted p.calls ++ (utfBytes cmd1 ++ [0x0A] ++ utfBytes cmd2 ++ [0x0A]) := by
  refine ⟨?_, ?_, ?_⟩
  · rw [sendToShell_eq]
  · rw [sendToShell_eq]
    simp [submitted_append, submitted]
  · rw [sendToShell_eq, sendToShell_eq]
    simp [submitted_append, submitted]

/-- C3: `readFromShell` asks `read` for 1023 bytes, one less than the 1024
bytes of its buffer; for every read result `len` with 0 < len <= 1023 the
store of the terminator at index `len` is inside the buffer; and for every
answer of the kernel the call stays inside the buffer and returns a string
built from at most 1023 bytes (and of at most 1023 characters when these
bytes are modified UTF-8). -/
theorem readFromShell_stays_in_buffer (p : Process) (stack : Nat → Byte) (o : ReadOutcome) :
    (Java_com_tesseract_spectraz_TerminalNative_readFromShell p stack o).2.calls
        = p.calls ++ [Call.read p.master_fd 1023]
    ∧ (∀ (buf : Nat → Byte) (len : Int), 0 < len → len ≤ 1023 →
        (store buf 1024 len 0).isSome = true)
    ∧ ∃ s, (Java_com_tesseract_spectraz_TerminalNative_readFromShell p stack o).1 = some s
        ∧ s.bytes.length ≤ 1023
        ∧ ∀ u, s.chars = some u → u.length ≤ 1023 := by
  have hstore : ∀ (buf : Nat → Byte) (len : Int), 0 < len → len ≤ 1023 →
      (store buf 1024 len 0).isSome = true := by
    intro buf len h0 h1
    unfold store
    rw [if_pos (by constructor <;> omega)]
    rfl
  have hempty : ∀ u : List Nat, (some [] : Option (List Nat)) = some u → u.length ≤ 1023 := by
    intro u hu
    have : u = [] := (Option.some.inj hu).symm
    subst this
    exact Nat.zero_le _
  by_cases hfd : p.master_fd < 0
  · rw [readFromShell_no_data p stack o (Or.inl hfd)]
    exact ⟨rfl, hstore, _, rfl, Nat.zero_le _, hempty⟩
  · cases o with
    | error e =>
      rw [readFromShell_no_data p stack _ (Or.inr (Or.inl ⟨e, rfl⟩))]
      exact ⟨rfl, hstore, _, rfl, Nat.zero_le _, hempty⟩
    | data avail =>
      rw [readFromShell_data p stack avail (by omega)]
      have hlen : (List.takeWhile (fun b => b != 0) (List.take 1023 avail)).length ≤ 1023 :=
        calc (List.takeWhile (fun b => b != 0) (List.take 1023 avail)).length
            ≤ (List.take 1023 avail).length := (List.takeWhile_sublist _).length_le
          _ ≤ 1023 := by simp
      refine ⟨rfl, hstore, _, rfl, hlen, ?_⟩
      intro u hu
      exact Nat.le_trans (decodeUTF_length _ u hu) hlen

/-- C3 at a concrete input: the largest admitted read result, 1023, stores its terminator in bounds. -/
theorem readFromShell_stays_in_buffer_witness :
    (store (fun _ => 0xAA) 1024 1023 0).isSome = true :=
  (readFromShell_stays_in_buffer boot (fun _ => 0xAA) (ReadOutcome.data [0x68])).2.1
    (fun _ => 0xAA) 1023 (by decide) (by decide)

theorem startShell_failed (p : Process) (r : ForkptyResult) (execOk : Bool) (h : r.pid < 0) :
    Java_com_tesseract_spectraz_TerminalNative_startShell p r execOk
      = Outcome.returned false (log p (Call.forkpty ⟨24, 80, 0, 0⟩)) := by
  have h1 : ¬ r.pid > 0 := by omega
  have h2 : ¬ r.pid = 0 := by omega
  simp [Java_com_tesseract_spectraz_TerminalNative_startShell, forkpty, h, h1, h2]

theorem startShell_parent (p : Process) (r : ForkptyResult) (execOk : Bool) (h : 0 < r.pid) :
    Java_com_tesseract_spectraz_TerminalNative_startShell p r execOk
      = Outcome.returned true
          { shell_pid := r.pid, master_fd := r.amaster, masters := r.amaster :: p.masters,
            children := r.pid :: p.children,
            calls := p.calls ++ [Call.forkpty ⟨24, 80, 0, 0⟩] } := by
  have h1 : ¬ r.pid < 0 := by omega
  have h2 : ¬ r.pid = 0 := by omega
  simp [Java_com_tesseract_spectraz_TerminalNative_startShell, forkpty, log, h, h1, h2]

theorem startShell_child (p : Process) (r : ForkptyResult) (execOk : Bool) (h : r.pid = 0) :
    Java_com_tesseract_spectraz_TerminalNative_startShell p r execOk
      = if execOk then
          Outcome.replaced
            { shell_pid := p.shell_pid, master_fd := p.master_fd, masters := p.masters,
              children := [],
              calls := p.calls ++ [Call.forkpty ⟨24, 80, 0, 0⟩, Call.execlp "su" ["su"]] }
        else
          Outcome.terminated 1
            { shell_pid := p.shell_pid, master_fd := p.master_fd, masters := p.masters,
              children := [],
              calls := p.calls ++ [Call.forkpty ⟨24, 80, 0, 0⟩, Call.execlp "su" ["su"],
                                   Call._exit 1] } := by
  simp [Java_com_tesseract_spectraz_TerminalNative_startShell, forkpty, log, h]


/-- C4 (as stated, refuted): before any `startShell`, with `master_fd` still
-1, `sendToShell` issues its two `write` calls on descriptor -1 and hands
nothing back, and `readFromShell` issues its `read` call on descriptor -1 and
returns the empty string, the very result a live session gives at end of
file: no closed-channel condition is reported. -/
theorem io_before_startShell_reports_nothing :
    Java_com_tesseract_spectraz_TerminalNative_sendToShell boot [0x6C, 0x73]
        = { boot with calls := [Call.write (-1) [0x6C, 0x73], Call.write (-1) [0x0A]] }
    ∧ Java_com_tesseract_spectraz_TerminalNative_readFromShell boot (fun _ => 0xAA)
          (ReadOutcome.error 9)
        = (some { bytes := [], chars := some [] },
           { boot with calls := [Call.read (-1) 1023] })
    ∧ (Java_com_tesseract_spectraz_TerminalNative_readFromShell boot (fun _ => 0xAA)
          (ReadOutcome.error 9)).1
        = (Java_com_tesseract_spectraz_TerminalNative_readFromShell
            live
            (fun _ => 0xAA) (ReadOutcome.data [])).1 := by
  decide

/-- C4 (amended): whenever `master_fd` is negative (in particular before any
successful `startShell`, when it is still -1) the two calls are deterministic
and report nothing: `sendToShell` issues its two `write` calls with that
descriptor value and changes nothing else; `readFromShell` issues its one
`read` call with that descriptor value and returns the empty string, whatever
the kernel would have had to deliver. -/
theorem io_on_negative_descriptor (p : Process) (cmd : List Nat) (stack : Nat → Byte)
    (o : ReadOutcome) (h : p.master_fd < 0) :
    Java_com_tesseract_spectraz_TerminalNative_sendToShell p cmd
        = { p with calls := p.calls ++ [Call.write p.master_fd (utfBytes cmd),
                                        Call.write p.master_fd [0x0A]] }
    ∧ Java_com_tesseract_spectraz_TerminalNative_readFromShell p stack o
        = (some { bytes := [], chars := some [] },
           { p with calls := p.calls ++ [Call.read p.master_fd 1023] }) :=
  ⟨sendToShell_eq p cmd, readFromShell_no_data p stack o (Or.inl h)⟩

/-- C4 (amended) at a concrete input: the initial state, whose `master_fd` is -1. -/
theorem io_on_negative_descriptor_witness :
    Java_com_tesseract_spectraz_TerminalNative_sendToShell boot [0x6C, 0x73]
        = { boot with calls := boot.calls ++ [Call.write boot.master_fd (utfBytes [0x6C, 0x73]),
                                              Call.write boot.master_fd [0x0A]] }
    ∧ Java_com_tesseract_spectraz_TerminalNative_readFromShell boot (fun _ => 0xAA)
          (ReadOutcome.data [0x68])
        = (some { bytes := [], chars := some [] },
           { boot with calls := boot.calls ++ [Call.read boot.master_fd 1023] }) :=
  io_on_negative_descriptor boot [0x6C, 0x73] (fun _ => 0xAA) (ReadOutcome.data [0x68])
    (by decide)

/-- C5: `startShell` returns false to its caller exactly when `forkpty`
returns a negative pid, and then `shell_pid` is unchanged; for every positive
pid that `forkpty` returns it returns true with that pid stored in
`shell_pid`. -/
theorem startShell_reports_fork_result (p : Process) (r : ForkptyResult) (execOk : Bool) :
    ((∃ q, Java_com_tesseract_spectraz_TerminalNative_startShell p r execOk
            = Outcome.returned false q) ↔ r.pid < 0)
    ∧ (r.pid < 0 →
        ∃ q, Java_com_tesseract_spectraz_TerminalNative_startShell p r execOk
              = Outcome.returned false q ∧ q.shell_pid = p.shell_pid)
    ∧ (0 < r.pid →
        ∃ q, Java_com_tesseract_spectraz_TerminalNative_startShell p r execOk
              = Outcome.returned true q ∧ q.shell_pid = r.pid) := by
  refine ⟨⟨?_, ?_⟩, ?_, ?_⟩
  · rintro ⟨q, hq⟩
    by_contra hneg
    by_cases h0 : r.pid = 0
    · rw [startShell_child p r execOk h0] at hq
      cases execOk <;> simp at hq
    · rw [startShell_parent p r execOk (by omega)] at hq
      simp at hq
  · intro h
    exact ⟨_, startShell_failed p r execOk h⟩
  · intro h
    exact ⟨_, startShell_failed p r execOk h, rfl⟩
  · intro h
    exact ⟨_, startShell_parent p r execOk h, rfl⟩

/-- C5 at concrete inputs: `forkpty` answering -1, and answering child 4001. -/
theorem startShell_reports_fork_result_witness :
    (∃ q, Java_com_tesseract_spectraz_TerminalNative_startShell boot ⟨-1, 0⟩ true
            = Outcome.returned false q ∧ q.shell_pid = boot.shell_pid)
    ∧ (∃ q, Java_com_tesseract_spectraz_TerminalNative_startShell boot ⟨4001, 57⟩ true
            = Outcome.returned true q ∧ q.shell_pid = 4001) :=
  ⟨(startShell_reports_fork_result boot ⟨-1, 0⟩ true).2.1 (by decide),
   (startShell_reports_fork_result boot ⟨4001, 57⟩ true).2.2 (by decide)⟩

/-- C6: in the child (`forkpty` returned 0), when `execlp` fails and returns,
`startShell` ends in `_exit(1)`: the exit status is 1, which is not 0, the
last calls issued are the `execlp` and the `_exit`, `shell_pid` is left as it
was, and no result is returned to the caller. -/
theorem startShell_child_exits_when_exec_fails (p : Process) (amaster : Int) :
    (∃ q, Java_com_tesseract_spectraz_TerminalNative_startShell p ⟨0, amaster⟩ false
            = Outcome.terminated 1 q
          ∧ q.shell_pid = p.shell_pid
          ∧ q.calls = p.calls ++ [Call.forkpty ⟨24, 80, 0, 0⟩, Call.execlp "su" ["su"],
                                  Call._exit 1])
    ∧ (1 : Int) ≠ 0
    ∧ ∀ b q, Java_com_tesseract_spectraz_TerminalNative_startShell p ⟨0, amaster⟩ false
              ≠ Outcome.returned b q := by
  have h := startShell_child p ⟨0, amaster⟩ false rfl
  refine ⟨⟨_, h, rfl, rfl⟩, by decide, ?_⟩
  intro b q
  rw [h]
  simp

/-- C7 (as stated, refuted): on a live session a failed read (errno EAGAIN)
and a read of 0 bytes give the same result, the empty string; so does a
successful read whose first byte is 0x00. -/
theorem readFromShell_conflates_failure_and_eof :
    (Java_com_tesseract_spectraz_TerminalNative_readFromShell
        live
        (fun _ => 0xAA) (ReadOutcome.error 11)).1
      = (Java_com_tesseract_spectraz_TerminalNative_readFromShell
        live
        (fun _ => 0xAA) (ReadOutcome.data [])).1
    ∧ (Java_com_tesseract_spectraz_TerminalNative_readFromShell
        live
        (fun _ => 0xAA) (ReadOutcome.data [0x00, 0x41])).1
      = (Java_com_tesseract_spectraz_TerminalNative_readFromShell
        live
        (fun _ => 0xAA) (ReadOutcome.data [])).1 := by
  decide

/-- C7 (amended): `readFromShell` gives the empty string both for a read that
fails and for a read that returns 0 bytes, so these two are not told apart; a
successful read on a valid descriptor whose first byte is not 0x00 gives a
string built from a non-empty byte string, which is a non-empty string
whenever these bytes are modified UTF-8, and so differs from both. -/
theorem readFromShell_empty_unless_data (p : Process) (stack : Nat → Byte) (errno : Nat)
    (b : Byte) (rest : List Byte) :
    (Java_com_tesseract_spectraz_TerminalNative_readFromShell p stack
        (ReadOutcome.error errno)).1 = some { bytes := [], chars := some [] }
    ∧ (Java_com_tesseract_spectraz_TerminalNative_readFromShell p stack
        (ReadOutcome.data [])).1 = some { bytes := [], chars := some [] }
    ∧ (0 ≤ p.master_fd → b ≠ 0 →
        ∃ s, (Java_com_tesseract_spectraz_TerminalNative_readFromShell p stack
                (ReadOutcome.data (b :: rest))).1 = some s
          ∧ s.bytes ≠ []
          ∧ ∀ u, s.chars = some u → u ≠ []) := by
  refine ⟨?_, ?_, ?_⟩
  · rw [readFromShell_no_data p stack _ (Or.inr (Or.inl ⟨errno, rfl⟩))]
  · rw [readFromShell_no_data p stack _ (Or.inr (Or.inr rfl))]
  · intro hfd hb
    rw [readFromShell_data p stack (b :: rest) hfd]
    have hcons : List.takeWhile (fun b => b != 0) (List.take 1023 (b :: rest))
        = b :: List.takeWhile (fun b => b != 0) (List.take 1022 rest) := by
      show List.takeWhile (fun b => b != 0) (List.take (1022 + 1) (b :: rest)) = _
      rw [List.take_succ_cons, List.takeWhile_cons]
      simp [hb]
    rw [hcons]
    refine ⟨_, rfl, by simp, ?_⟩
    intro u hu hnil
    rw [hnil] at hu
    exact decodeUTF_cons_ne_nil b _ hu

/-- C7 (amended) at a concrete input: the live session reads the two bytes
0x68 0x69 and returns a string that is not empty. -/
theorem readFromShell_empty_unless_data_witness :
    ∃ s, (Java_com_tesseract_spectraz_TerminalNative_readFromShell live (fun _ => 0xAA)
            (ReadOutcome.data (0x68 :: [0x69]))).1 = some s
      ∧ s.bytes ≠ [] ∧ ∀ u, s.chars = some u → u ≠ [] :=
  (readFromShell_empty_unless_data live (fun _ => 0xAA) 11 0x68 [0x69]).2.2
    (by decide) (by decide)

theorem startShell_calls (p : Process) (r : ForkptyResult) (execOk : Bool) :
    (Java_com_tesseract_spectraz_TerminalNative_startShell p r execOk).calls
      = p.calls ++ Call.forkpty ⟨24, 80, 0, 0⟩ ::
          (if r.pid = 0 then
              Call.execlp "su" ["su"] :: (if execOk = true then [] else [Call._exit 1])
            else []) := by
  by_cases h0 : r.pid = 0
  · rw [startShell_child p r execOk h0, if_pos h0]
    cases execOk <;> simp [Outcome.calls]
  · rw [if_neg h0]
    by_cases hneg : r.pid < 0
    · rw [startShell_failed p r execOk hneg]
      simp [Outcome.calls, log]
    · rw [startShell_parent p r execOk (by omega)]
      simp [Outcome.calls]

theorem startShell_execRequests (p : Process) (r : ForkptyResult) (execOk : Bool) :
    execRequests (Java_com_tesseract_spectraz_TerminalNative_startShell p r execOk).calls
      = execRequests p.calls ++ (if r.pid = 0 then [("su", ["su"])] else []) := by
  rw [startShell_calls, execRequests_append]
  by_cases h0 : r.pid = 0
  · cases execOk <;> simp [h0, execRequests]
  · simp [h0, execRequests]

theorem step_tracks (p q : Process) (op : Op) (n : Nat) (hstep : step p op = some q)
    (h : Tracks p n) : Tracks q (n + launches [op]) := by
  obtain ⟨hc, hm, hfd, hpid⟩ := h
  cases op with
  | startShell r execOk =>
    by_cases h0 : r.pid = 0
    · simp only [step] at hstep
      rw [startShell_child p r execOk h0] at hstep
      cases execOk <;> simp at hstep
    · by_cases hneg : r.pid < 0
      · simp only [step] at hstep
        rw [startShell_failed p r execOk hneg] at hstep
        have hq : q = log p (Call.forkpty ⟨24, 80, 0, 0⟩) := by simpa using hstep.symm
        have hn : ¬ r.pid > 0 := by omega
        subst hq
        simp only [launches, hn, if_false]
        exact ⟨hc, hm, hfd, hpid⟩
      · have hpos : 0 < r.pid := by omega
        simp only [step] at hstep
        rw [startShell_parent p r execOk hpos] at hstep
        have hq := (Option.some.inj hstep).symm
        subst hq
        have hp : r.pid > 0 := hpos
        simp only [launches, hp, if_true]
        refine ⟨?_, ?_, rfl, rfl⟩
        · simp only [List.length_cons, hc]
        · simp only [List.length_cons, hm]
  | sendToShell cmd =>
    simp only [step] at hstep
    rw [sendToShell_eq] at hstep
    have hq := (Option.some.inj hstep).symm
    subst hq
    exact ⟨hc, hm, hfd, hpid⟩
  | readFromShell stack o =>
    simp only [step] at hstep
    have hp2 : (Java_com_tesseract_spectraz_TerminalNative_readFromShell p stack o).2
        = log p (Call.read p.master_fd 1023) := by
      by_cases hneg : p.master_fd < 0
      · rw [readFromShell_no_data p stack o (Or.inl hneg)]
      · cases o with
        | error e => rw [readFromShell_no_data p stack _ (Or.inr (Or.inl ⟨e, rfl⟩))]
        | data avail => rw [readFromShell_data p stack avail (by omega)]
    rw [hp2] at hstep
    have hq := (Option.some.inj hstep).symm
    subst hq
    exact ⟨hc, hm, hfd, hpid⟩

theorem launches_cons (op : Op) (ops : List Op) :
    launches (op :: ops) = launches [op] + launches ops := by
  cases op <;> simp [launches]

theorem run_tracks (ops : List Op) : ∀ (p q : Process) (n : Nat),
    run p ops = some q → Tracks p n → Tracks q (n + launches ops) := by
  induction ops with
  | nil =>
    intro p q n hrun h
    have hq : p = q := by simpa [run] using hrun
    subst hq
    simpa [launches] using h
  | cons op ops ih =>
    intro p q n hrun h
    simp only [run] at hrun
    cases hs : step p op with
    | none => rw [hs] at hrun; simp at hrun
    | some m =>
      rw [hs] at hrun
      have h1 := step_tracks p m op n hs h
      have h2 := ih m q _ hrun h1
      rw [launches_cons, ← Nat.add_assoc]
      exact h2

/-- C8 (as stated, refuted): a child of `startShell` execs "su" with the
argument vector ("su"), and no answer of the environment makes a
`startShell` from the initial state exec the shell "sh": the program is fixed
in the code and the entry point takes no shell path. -/
theorem startShell_cannot_exec_sh :
    execRequests (Java_com_tesseract_spectraz_TerminalNative_startShell boot ⟨0, 0⟩ true).calls
        = [("su", ["su"])]
    ∧ ¬ ∃ (r : ForkptyResult) (execOk : Bool),
        ("sh", ["sh"]) ∈
          execRequests (Java_com_tesseract_spectraz_TerminalNative_startShell boot r execOk).calls := by
  refine ⟨by decide, ?_⟩
  rintro ⟨r, execOk, hmem⟩
  rw [startShell_execRequests] at hmem
  by_cases h0 : r.pid = 0
  · simp [h0, boot, execRequests] at hmem
  · simp [h0, boot, execRequests] at hmem

/-- C8 (amended): the program `startShell` execs in the child is the fixed
name "su" with argument vector ("su"), looked up by `execlp`; the caller
supplies nothing: each call adds exactly that one exec request in the child
and none in the parent or on failure. -/
theorem startShell_execs_su (p : Process) (r : ForkptyResult) (execOk : Bool) :
    execRequests (Java_com_tesseract_spectraz_TerminalNative_startShell p r execOk).calls
      = execRequests p.calls ++ (if r.pid = 0 then [("su", ["su"])] else []) :=
  startShell_execRequests p r execOk

/-- C9: every call of `startShell` first issues `forkpty` with the window
size ws_row = 24, ws_col = 80, ws_xpixel = 0, ws_ypixel = 0; the `execlp` of
the child, and the `_exit` after it, come only after that call and no second
`forkpty` is issued. -/
theorem startShell_creates_pty_80x24_first (p : Process) (r : ForkptyResult)
    (execOk : Bool) :
    (Java_com_tesseract_spectraz_TerminalNative_startShell p r execOk).calls
      = p.calls ++
          Call.forkpty { ws_row := 24, ws_col := 80, ws_xpixel := 0, ws_ypixel := 0 } ::
          (if r.pid = 0 then
              Call.execlp "su" ["su"] :: (if execOk = true then [] else [Call._exit 1])
            else []) :=
  startShell_calls p r execOk

/-- C10 (as stated, refuted): two successful `startShell` calls from the
initial state leave two unreaped children and two open master descriptors, of
which the first, 57, is no longer the one held in `master_fd`. -/
theorem second_startShell_orphans_first_session :
    ∃ q, run boot [Op.startShell ⟨4001, 57⟩ true, Op.startShell ⟨4002, 58⟩ true] = some q
      ∧ q.children = [4002, 4001] ∧ ¬ q.children.length ≤ 1
      ∧ q.masters = [58, 57] ∧ q.master_fd = 58 ∧ (57 : Int) ∈ q.masters
      ∧ (57 : Int) ≠ q.master_fd :=
  ⟨{ shell_pid := 4002, master_fd := 58, masters := [58, 57], children := [4002, 4001],
     calls := [Call.forkpty ⟨24, 80, 0, 0⟩, Call.forkpty ⟨24, 80, 0, 0⟩] },
   by decide, rfl, by decide, rfl, rfl, by decide, by decide⟩

/-- C10 (amended): in every state reached from the initial one by calls of
`startShell`, `sendToShell` and `readFromShell`, the unreaped children and the
open master descriptors are one each per successful `startShell` so far, and
`shell_pid` and `master_fd` hold the most recent of them (or -1 when there is
none); hence, as long as `startShell` has succeeded at most once, there is at
most one child and every open master descriptor is the one in `master_fd`. -/
theorem globals_track_latest_session (ops : List Op) (q : Process)
    (hrun : run boot ops = some q) :
    q.children.length = launches ops
    ∧ q.masters.length = launches ops
    ∧ q.master_fd = q.masters.headD (-1)
    ∧ q.shell_pid = q.children.headD (-1)
    ∧ (launches ops ≤ 1 →
        q.children.length ≤ 1 ∧ ∀ fd : Int, fd ∈ q.masters → fd = q.master_fd) := by
  have h := run_tracks ops boot q 0 hrun ⟨rfl, rfl, rfl, rfl⟩
  rw [Nat.zero_add] at h
  obtain ⟨hc, hm, hfd, hpid⟩ := h
  refine ⟨hc, hm, hfd, hpid, ?_⟩
  intro hle
  refine ⟨by omega, ?_⟩
  intro fd hmem
  rw [hfd]
  cases hms : q.masters with
  | nil => rw [hms] at hmem; simp at hmem
  | cons a l =>
    rw [hms] at hmem hm
    have hl : l = [] := by
      cases l with
      | nil => rfl
      | cons b l2 => simp at hm; omega
    subst hl
    simpa using hmem

/-- C10 (amended) at a concrete input: one successful `startShell` from the initial state. -/
theorem globals_track_latest_session_witness :
    run boot [Op.startShell ⟨4001, 57⟩ true] = some live
    ∧ live.children.length ≤ 1 ∧ ∀ fd : Int, fd ∈ live.masters → fd = live.master_fd :=
  ⟨by decide,
   (globals_track_latest_session [Op.startShell ⟨4001, 57⟩ true] live
      (by decide)).2.2.2.2 (by decide)⟩

end Spectraz
